import Mathlib

/-!
# Verification of `cleanlab/data_valuation.py`

A shallow embedding of the module `cleanlab.data_valuation` and proofs about it.

The module has three functions:

* `_knn_shapley_score(knn_graph, labels, k)` — the algorithmic core.  It reads the
  neighbor indices of the graph row by row (`knn_graph.indices.reshape(N, -1)`,
  each row ordered nearest-first), reverses each row, writes 0/1 match values via a
  backward recurrence into a row of an `N×N` accumulator, and finally returns
  `0.5 * (np.mean(scores / k, axis=0) + 1)`.
* `_process_knn_graph_from_features(features, metric, k)` — validates `k` against the
  number of examples, resolves the default metric (`"cosine"` for dimension > 3 else
  `"euclidean"`), and delegates to `sklearn.neighbors.NearestNeighbors` to build the
  neighbor graph (rows ordered by ascending distance, self excluded).
* `data_shapley_knn(labels, *, knn_graph, features, metric, k)` — dispatch and
  validation glue.

Modelling conventions:

* Machine floats are modelled by `ℚ`.  Every quantity the scorer manipulates is a
  0/1 match value, a sum of such values, or such a sum divided by `k` and `N`, so
  the rational model tracks the float computation exactly (well within the 1e-9
  tolerance the specification allows for the concrete scenario).
* Labels are modelled as `List ℤ` (any equality-comparable type would do), the
  neighbor graph as its list of rows of neighbor indices (`List (List ℕ)`), which is
  what `knn_graph.indices.reshape(N, -1)` exposes to the scorer.
* Python exceptions are modelled by `Except PyErr`: the `ValueError`s raised by the
  module itself and by the scikit-learn backend become `PyErr.valueError`, numpy
  index-out-of-range failures become `PyErr.indexError`.  Fallible execution of the
  pipeline is `data_shapley_knn_run`; the pure scorer `knn_shapley_score` models the
  non-raising executions (`N ≥ 1`, `1 ≤ k ≤` row width, in-range indices).
* The nearest-neighbor search itself lives in scikit-learn, outside this repository.
  It is modelled from its documented interface (and the spec's description of the
  collaborator): for every point, the `k` nearest other points ordered by ascending
  distance.  Distance ties are broken by lower index; the spec leaves tie-breaking
  open, and every statement proved below about concrete graph construction is
  insensitive to the tie-break (the scores depend only on row membership).
-/

/-- Python-style sequence indexing: non-negative indices address from the front,
negative indices from the back, anything else is out of range (`IndexError`). -/
def pyIdx (len : Nat) (i : Int) : Option Nat :=
  if 0 ≤ i ∧ i < (len : Int) then some i.toNat
  else if 0 ≤ i + (len : Int) ∧ i < 0 then some (i + (len : Int)).toNat
  else none

/-- Python exceptions surfaced by the module: `ValueError` (the spec's
`InvalidParameter`, raised by the module's own checks and by the scikit-learn
backend's parameter validation) and numpy's `IndexError`. -/
inductive PyErr where
  | valueError : PyErr
  | indexError : PyErr
deriving DecidableEq

/-- The value `ans_matches[j]` of `_knn_shapley_score` as a rational: `1` when the label of the
`j`-th entry of the reversed row `idx` equals the query label `y`, else `0`. -/
def matchVal (labels : List ℤ) (y : ℤ) (idx : List ℕ) (j : ℕ) : ℚ :=
  if labels.getD (idx.getD j 0) 0 = y then 1 else 0

/-- One iteration `s[idx[j]] = s[idx[j+1]] + (match[j] - match[j+1])` of the inner
loop of `_knn_shapley_score` (note: no division by `k` here; the code divides the
whole accumulator by `k` only during the final aggregation). -/
def knnStep (idx : List ℕ) (m : ℕ → ℚ) (j : ℕ) (s : List ℚ) : List ℚ :=
  s.set (idx.getD j 0) (s.getD (idx.getD (j + 1) 0) 0 + (m j - m (j + 1)))

/-- The inner loop `for j in range(T - 1, -1, -1)` of `_knn_shapley_score`:
`knnLoop idx m T s` performs the steps at `j = T - 1, T - 2, …, 0` (none if `T = 0`).
The scorer calls it with `T = k - 1`, i.e. `range(k - 2, -1, -1)`. -/
def knnLoop (idx : List ℕ) (m : ℕ → ℚ) : ℕ → List ℚ → List ℚ
  | 0, s => s
  | t + 1, s => knnLoop idx m t (knnStep idx m t s)

/-- One outer-loop iteration of `_knn_shapley_score` over a fresh zero row: write the
base case `s[idx[jb]] = match[jb]` into `np.zeros(N)`, then run the backward loop
down from `j = T - 1`.  (`jb` is the already-resolved position of the Python index
`k - 1`; for the non-raising executions with `1 ≤ k` it is just `k - 1`.) -/
def knnRowCore (labels : List ℤ) (y : ℤ) (idx : List ℕ) (jb T : ℕ) : List ℚ :=
  knnLoop idx (matchVal labels y idx) T
    ((List.replicate labels.length (0 : ℚ)).set (idx.getD jb 0) (matchVal labels y idx jb))

/-- The row pass of `_knn_shapley_score` for query label `y` and graph row `row`
(stored nearest-first; `idx = row.reverse` is the farthest-first order the code
uses), for `1 ≤ k ≤ row.length`: base case at `idx[k-1]` (the nearest neighbor),
then the backward recurrence for `j = k-2, …, 0`. -/
def knnRowScore (labels : List ℤ) (y : ℤ) (row : List ℕ) (k : ℕ) : List ℚ :=
  knnRowCore labels y row.reverse (k - 1) (k - 1)

/-- The `N×N` accumulator `scores` of `_knn_shapley_score` after the outer loop:
row `q` is the row pass for query point `q` (query label `labels[q]`, graph row
`rows[q]`). -/
def knnScoreRows (rows : List (List ℕ)) (labels : List ℤ) (k : ℕ) : List (List ℚ) :=
  (labels.zip rows).map (fun p => knnRowScore labels p.1 p.2 k)

/-- The function `_knn_shapley_score`: the final aggregation
`0.5 * (np.mean(scores / k, axis=0) + 1)` of the accumulator rows, one output entry
per column `i < N`. -/
def knn_shapley_score (rows : List (List ℕ)) (labels : List ℤ) (k : ℕ) : List ℚ :=
  (List.range labels.length).map (fun i =>
    (1 / 2 : ℚ) *
      ((((knnScoreRows rows labels k).map (fun s => s.getD i 0 / (k : ℚ))).sum) /
          (labels.length : ℚ) + 1))

/-- The count `c i`: the number of query rows `q` whose neighbor list contains `i` and whose
query label agrees with `labels[i]` — the quantity the closed form of the scorer is
expressed in. -/
def matchCount (labels : List ℤ) (rows : List (List ℕ)) (i : ℕ) : ℕ :=
  (labels.zip rows).countP (fun p => decide (i ∈ p.2) && decide (labels.getD i 0 = p.1))

/-- The number of graph rows whose neighbor list contains `i` (the in-degree of `i`
in the neighbor graph). -/
def inCount (rows : List (List ℕ)) (i : ℕ) : ℕ :=
  rows.countP (fun row => decide (i ∈ row))

/-! ## The fallible pipeline

`data_shapley_knn` performs no validation of `k` of its own: with a supplied graph it
goes straight into `_knn_shapley_score`, whose numpy indexing raises `IndexError`
when `idx[k-1]` is out of range (`k - 1 ≥` row width or `k - 1 < -`row width).  With
features it first runs `_process_knn_graph_from_features`. -/

/-- One outer-loop iteration of `_knn_shapley_score` with Python error semantics:
`ans = labels[idx]` raises `IndexError` unless every neighbor index is in range, and
`idx[k - 1]` raises `IndexError` unless `k - 1` is a valid Python index into the
row.  (`scores / k` never raises in numpy: for `k = 0` it yields `nan`/`inf` values
with a warning; the rational model of that division-by-zero is the junk value `0`,
which is irrelevant to every statement proved below.) -/
def rowScoreRun (labels : List ℤ) (y : ℤ) (row : List ℕ) (k : ℤ) : Except PyErr (List ℚ) :=
  let idx := row.reverse
  if idx.all (fun p => decide (p < labels.length)) then
    match pyIdx idx.length (k - 1) with
    | none => Except.error PyErr.indexError
    | some jb => Except.ok (knnRowCore labels y idx jb (k - 1).toNat)
  else Except.error PyErr.indexError

/-- The outer loop of `_knn_shapley_score` with error propagation: rows are processed
in order and the first raising row aborts the computation, exactly as the Python
`for` loop does. -/
def mapRowsRun (labels : List ℤ) (k : ℤ) : List (ℤ × List ℕ) → Except PyErr (List (List ℚ))
  | [] => Except.ok []
  | p :: ps =>
    match rowScoreRun labels p.1 p.2 k with
    | Except.error e => Except.error e
    | Except.ok s =>
      match mapRowsRun labels k ps with
      | Except.error e => Except.error e
      | Except.ok rest => Except.ok (s :: rest)

/-- The function `_knn_shapley_score` with Python error semantics.  Before any row
is scored, `dist = knn_graph.indices.reshape(N, -1)` raises a `ValueError` when
`N = 0`: numpy cannot infer the `-1` dimension from a size-0 target shape
(regardless of the graph's content).  For `N ≥ 1`, under the uniform row width and
row count the theorems below hypothesize, the reshape re-chunks the flat CSR index
array into exactly the given rows, so the row list is consumed as-is.  Then the
outer loop runs and the result is aggregated as
`0.5 * (np.mean(scores / k, axis=0) + 1)`. -/
def knn_shapley_score_run (rows : List (List ℕ)) (labels : List ℤ) (k : ℤ) :
    Except PyErr (List ℚ) :=
  if labels.length = 0 then Except.error PyErr.valueError
  else match mapRowsRun labels k (labels.zip rows) with
  | Except.error e => Except.error e
  | Except.ok scoreRows =>
    Except.ok ((List.range labels.length).map (fun i =>
      (1 / 2 : ℚ) *
        (((scoreRows.map (fun s => s.getD i 0 / (k : ℚ))).sum) / (labels.length : ℚ) + 1)))

/-! ### The neighbor-search collaborator

`sklearn.neighbors.NearestNeighbors` is outside this repository; it is modelled from
its documented interface, which is also how the spec describes the collaborator:
`kneighbors_graph(mode="distance")` on the fitted features returns, for every point,
its `k` nearest *other* points ordered by ascending distance (the CSR `indices` of a
row keep that order).  Only the two metrics the module's policy can resolve are
modelled (`"euclidean"` via the order-equivalent squared distance, `"cosine"` via an
exact comparison of cosine similarities); distance ties are broken by lower point
index — the tie-break is left open by sklearn and by the spec, and no statement
below depends on it. -/

/-- Squared euclidean distance between two feature vectors (order-equivalent to the
euclidean distance sklearn sorts by). -/
def sqdist (a b : List ℚ) : ℚ :=
  ((a.zip b).map (fun p => (p.1 - p.2) * (p.1 - p.2))).sum

/-- Dot product of two feature vectors. -/
def dot (a b : List ℚ) : ℚ :=
  ((a.zip b).map (fun p => p.1 * p.2)).sum

/-- Squared norm of a feature vector. -/
def sumsq (a : List ℚ) : ℚ :=
  (a.map (fun x => x * x)).sum

/-- Exact test for `cos_sim(xi, a) ≥ cos_sim(xi, b)`, i.e. cosine distance of `a`
not larger than that of `b`: after clearing the positive factor `‖xi‖·‖a‖·‖b‖` the
comparison `dot(xi,a)·‖b‖ ≥ dot(xi,b)·‖a‖` is decided by signs and squaring, with no
square roots. -/
def cosSimGe (xi a b : List ℚ) : Bool :=
  let da := dot xi a
  let db := dot xi b
  if 0 ≤ da then
    if db ≤ 0 then true else decide (db * db * sumsq a ≤ da * da * sumsq b)
  else
    if 0 ≤ db then false else decide (da * da * sumsq b ≤ db * db * sumsq a)

/-- The relation "point `a` is listed before point `b` among the neighbors of point `i`": strictly
smaller distance under the resolved metric, or equal distance and lower index (the
modelled tie-break). -/
def nnLe (metric : String) (X : List (List ℚ)) (i a b : ℕ) : Bool :=
  let xi := X.getD i []
  if metric = "cosine" then
    cosSimGe xi (X.getD a []) (X.getD b []) &&
      (!cosSimGe xi (X.getD b []) (X.getD a []) || decide (a ≤ b))
  else
    let da := sqdist xi (X.getD a [])
    let db := sqdist xi (X.getD b [])
    decide (da < db) || (decide (da = db) && decide (a ≤ b))

/-- Insert an element into a list sorted by `le`. -/
def insertBy (le : ℕ → ℕ → Bool) (a : ℕ) : List ℕ → List ℕ
  | [] => [a]
  | b :: l => if le a b then a :: b :: l else b :: insertBy le a l

/-- Insertion sort by `le` (a total order here, so the result is the unique sorted
arrangement). -/
def sortBy (le : ℕ → ℕ → Bool) : List ℕ → List ℕ
  | [] => []
  | a :: l => insertBy le a (sortBy le l)

/-- Modelled from the spec (and sklearn's documented interface, the collaborator
being outside this repository): the neighbor row of point `i` — every other point,
sorted by ascending distance under `metric` (ties by lower index), truncated to the
`k` nearest. -/
def neighborRow (X : List (List ℚ)) (metric : String) (k : ℕ) (i : ℕ) : List ℕ :=
  (sortBy (nnLe metric X i) (((List.range X.length).filter (fun j => decide (j ≠ i))))).take k

/-- Modelled from the spec: the full neighbor graph `kneighbors_graph` row list. -/
def neighborRows (X : List (List ℚ)) (metric : String) (k : ℕ) : List (List ℕ) :=
  (List.range X.length).map (neighborRow X metric k)

/-- The metric-resolution policy of `_process_knn_graph_from_features` (lines 61-62):
an explicit metric is used as given; otherwise `"cosine"` for feature dimension
`> 3`, else `"euclidean"`. -/
def resolveMetric (metric : Option String) (D : ℕ) : String :=
  match metric with
  | some m => m
  | none => if D > 3 then "cosine" else "euclidean"

/-- The function `_process_knn_graph_from_features`: reject `k > N` with a `ValueError` before
any neighbor search; resolve the metric; then the backend's own validation —
`NearestNeighbors.fit` rejects `n_neighbors ≤ 0`, and `kneighbors_graph` (which
excludes self) rejects `n_neighbors > N - 1` — also as `ValueError`s. -/
def process_knn_graph_from_features (X : List (List ℚ)) (metric : Option String)
    (k : ℤ) : Except PyErr (List (List ℕ)) :=
  if (X.length : ℤ) < k then Except.error PyErr.valueError
  else
    let m := resolveMetric metric (X.headD []).length
    if k ≤ 0 then Except.error PyErr.valueError
    else if (X.length : ℤ) ≤ k then Except.error PyErr.valueError
    else Except.ok (neighborRows X m k.toNat)

/-- The function `data_shapley_knn`: raise `ValueError` when neither a graph nor features are
supplied; build the graph from the features when no graph is supplied; then score.
A supplied graph is used as-is — no further validation happens on that path. -/
def data_shapley_knn_run (labels : List ℤ) (knn_graph : Option (List (List ℕ)))
    (features : Option (List (List ℚ))) (metric : Option String) (k : ℤ) :
    Except PyErr (List ℚ) :=
  match knn_graph, features with
  | none, none => Except.error PyErr.valueError
  | some g, _ => knn_shapley_score_run g labels k
  | none, some X =>
    match process_knn_graph_from_features X metric k with
    | Except.error e => Except.error e
    | Except.ok g => knn_shapley_score_run g labels k

/-! ## List helpers -/

lemma getD_set_self (l : List ℚ) (i : ℕ) (a : ℚ) (h : i < l.length) :
    (l.set i a).getD i 0 = a := by
  rw [List.getD_eq_getElem (l.set i a) 0 (by simpa using h)]
  exact List.getElem_set_self (by simpa using h)

lemma getD_set_ne (l : List ℚ) (i j : ℕ) (a : ℚ) (h : i ≠ j) :
    (l.set i a).getD j 0 = l.getD j 0 := by
  rw [List.getD_eq_getElem?_getD, List.getD_eq_getElem?_getD, List.getElem?_set_ne h]

lemma getD_replicate_zero (n i : ℕ) : (List.replicate n (0 : ℚ)).getD i 0 = 0 := by
  rw [List.getD_eq_getElem?_getD, List.getElem?_replicate]
  split <;> rfl

lemma nodup_getD_ne (l : List ℕ) (h : l.Nodup) {i j : ℕ}
    (hi : i < l.length) (hj : j < l.length) (hij : i ≠ j) :
    l.getD i 0 ≠ l.getD j 0 := by
  rw [List.getD_eq_getElem l 0 hi, List.getD_eq_getElem l 0 hj]
  intro heq
  exact hij (Fin.mk.injEq i hi j hj ▸
    congrArg Fin.val ((List.Nodup.get_inj_iff h (i := ⟨i, hi⟩) (j := ⟨j, hj⟩)).mp heq))

lemma getD_mem_of_lt (l : List ℕ) {j : ℕ} (h : j < l.length) : l.getD j 0 ∈ l := by
  rw [List.getD_eq_getElem l 0 h]
  exact List.getElem_mem h

lemma mem_exists_getD {l : List ℕ} {a : ℕ} (h : a ∈ l) :
    ∃ j, j < l.length ∧ l.getD j 0 = a := by
  obtain ⟨n, hn, hna⟩ := List.mem_iff_getElem.mp h
  exact ⟨n, hn, by rw [List.getD_eq_getElem l 0 hn]; exact hna⟩

/-! ## The inner-loop invariant

After the backward loop has run from `j = T - 1` down to `0`, starting from a state
whose entry at `idx[T]` is `match[T]`, the entry at `idx[j]` is exactly `match[j]`
for every `j ≤ T` (the recurrence telescopes), and every position not written keeps
its initial value. -/

lemma knnLoop_spec (idx : List ℕ) (m : ℕ → ℚ) :
    ∀ (T : ℕ) (s : List ℚ), idx.Nodup → (∀ q ∈ idx, q < s.length) →
      T < idx.length → s.getD (idx.getD T 0) 0 = m T →
      (knnLoop idx m T s).length = s.length ∧
      (∀ j, j ≤ T → (knnLoop idx m T s).getD (idx.getD j 0) 0 = m j) ∧
      (∀ p, (∀ j, j < T → idx.getD j 0 ≠ p) →
        (knnLoop idx m T s).getD p 0 = s.getD p 0) := by
  intro T
  induction T with
  | zero =>
    intro s _ _ _ hbase
    refine ⟨rfl, ?_, fun p _ => rfl⟩
    intro j hj
    interval_cases j
    exact hbase
  | succ T ih =>
    intro s hnd hin hT hbase
    have hT' : T < idx.length := Nat.lt_of_succ_lt hT
    have hwpos : idx.getD T 0 < s.length := hin _ (getD_mem_of_lt idx hT')
    have hne : idx.getD T 0 ≠ idx.getD (T + 1) 0 :=
      nodup_getD_ne idx hnd hT' hT (Nat.ne_of_lt (Nat.lt_succ_self T))
    -- the step at `j = T` writes `match[T]` at `idx[T]`
    have hstep_len : (knnStep idx m T s).length = s.length := by
      simp [knnStep]
    have hstep_self : (knnStep idx m T s).getD (idx.getD T 0) 0 = m T := by
      rw [knnStep, getD_set_self _ _ _ hwpos, hbase]
      ring
    have hstep_other : ∀ p, idx.getD T 0 ≠ p →
        (knnStep idx m T s).getD p 0 = s.getD p 0 := by
      intro p hp
      rw [knnStep, getD_set_ne _ _ _ _ hp]
    have hin' : ∀ q ∈ idx, q < (knnStep idx m T s).length := by
      intro q hq; rw [hstep_len]; exact hin q hq
    obtain ⟨ihlen, ihwritten, ihkept⟩ :=
      ih (knnStep idx m T s) hnd hin' hT' hstep_self
    simp only [knnLoop]
    refine ⟨ihlen.trans hstep_len, ?_, ?_⟩
    · intro j hj
      rcases Nat.lt_or_ge j (T + 1) with hlt | hge
      · exact ihwritten j (Nat.lt_succ_iff.mp hlt)
      · have hj' : j = T + 1 := Nat.le_antisymm hj hge
        subst hj'
        have hkeep : ∀ j', j' < T → idx.getD j' 0 ≠ idx.getD (T + 1) 0 := by
          intro j' hj'
          exact nodup_getD_ne idx hnd (Nat.lt_trans hj' hT') hT (by omega)
        rw [ihkept _ hkeep, hstep_other _ hne, hbase]
    · intro p hp
      rw [ihkept p (fun j hj => hp j (Nat.lt_succ_of_lt hj)),
        hstep_other p (hp T (Nat.lt_succ_self T))]

/-! ## The row pass characterization -/

lemma knnRowScore_spec (labels : List ℤ) (y : ℤ) (row : List ℕ) (k : ℕ)
    (hk : 1 ≤ k) (hkw : k ≤ row.length) (hnd : row.Nodup)
    (hin : ∀ p ∈ row, p < labels.length) :
    (knnRowScore labels y row k).length = labels.length ∧
    (∀ j, j < k → (knnRowScore labels y row k).getD (row.reverse.getD j 0) 0
        = matchVal labels y row.reverse j) ∧
    (∀ p, (∀ j, j < k → row.reverse.getD j 0 ≠ p) →
        (knnRowScore labels y row k).getD p 0 = 0) := by
  set idx := row.reverse with hidx
  have hidxlen : idx.length = row.length := List.length_reverse row
  have hidxnd : idx.Nodup := List.nodup_reverse.mpr hnd
  have hidxin : ∀ q ∈ idx, q < labels.length := by
    intro q hq
    exact hin q (List.mem_reverse.mp hq)
  have hk1 : k - 1 < idx.length := by omega
  set base := (List.replicate labels.length (0 : ℚ)).set (idx.getD (k - 1) 0)
    (matchVal labels y idx (k - 1)) with hbase
  have hbaselen : base.length = labels.length := by
    simp [hbase]
  have hbasein : ∀ q ∈ idx, q < base.length := by
    intro q hq; rw [hbaselen]; exact hidxin q hq
  have hbwrit : idx.getD (k - 1) 0 < base.length := hbasein _ (getD_mem_of_lt idx hk1)
  have hbself : base.getD (idx.getD (k - 1) 0) 0 = matchVal labels y idx (k - 1) := by
    rw [hbase]
    exact getD_set_self _ _ _ (by simpa [hbase] using hbwrit)
  obtain ⟨hlen, hwrit, hkept⟩ :=
    knnLoop_spec idx (matchVal labels y idx) (k - 1) base hidxnd hbasein hk1 hbself
  have heq : knnRowScore labels y row k = knnLoop idx (matchVal labels y idx) (k - 1) base := by
    rw [knnRowScore, knnRowCore]
  refine ⟨by rw [heq, hlen, hbaselen], ?_, ?_⟩
  · intro j hj
    rw [heq]
    exact hwrit j (by omega)
  · intro p hp
    rw [heq, hkept p (fun j hj => hp j (by omega)), hbase,
      getD_set_ne _ _ _ _ (hp (k - 1) (by omega)), getD_replicate_zero]

/-- Each entry of a finished accumulator row is the 0/1 indicator "this column is a
neighbor in the row, and its label matches the query label" (the backward recurrence
telescopes to exactly the match values). -/
lemma knnRowScore_indicator (labels : List ℤ) (y : ℤ) (row : List ℕ) (k : ℕ)
    (hw : row.length = k) (hk : 1 ≤ k) (hnd : row.Nodup)
    (hin : ∀ p ∈ row, p < labels.length) (i : ℕ) :
    (knnRowScore labels y row k).getD i 0
      = if i ∈ row ∧ labels.getD i 0 = y then 1 else 0 := by
  obtain ⟨-, hwrit, hkept⟩ := knnRowScore_spec labels y row k hk (le_of_eq hw.symm) hnd hin
  have hrevlen : row.reverse.length = k := by rw [List.length_reverse, hw]
  by_cases hmem : i ∈ row
  · obtain ⟨j, hj, hji⟩ := mem_exists_getD (List.mem_reverse.mpr hmem)
    have := hwrit j (hrevlen ▸ hj)
    rw [hji] at this
    rw [this, matchVal, hji]
    simp [hmem]
  · rw [hkept i ?_]
    · simp [hmem]
    · intro j hj hji
      exact hmem (List.mem_reverse.mp (hji ▸ getD_mem_of_lt row.reverse (hrevlen ▸ hj)))

/-! ## Aggregation: the closed form -/

lemma sum_map_div {α : Type} (l : List α) (f : α → ℚ) (c : ℚ) :
    (l.map (fun x => f x / c)).sum = (l.map f).sum / c := by
  induction l with
  | nil => simp
  | cons a l ih => simp [ih, add_div]

lemma sum_map_indicator {α : Type} (l : List α) (q : α → Prop) [DecidablePred q] :
    (l.map (fun x => if q x then (1 : ℚ) else 0)).sum = (l.countP (fun x => decide (q x)) : ℚ) := by
  induction l with
  | nil => simp
  | cons a l ih =>
    rw [List.map_cons, List.sum_cons, ih, List.countP_cons]
    by_cases h : q a <;> simp [h, add_comm]

/-- The getD-entry of the output vector at a valid column `i`. -/
lemma knn_shapley_score_getD (rows : List (List ℕ)) (labels : List ℤ) (k : ℕ)
    {i : ℕ} (hi : i < labels.length) :
    (knn_shapley_score rows labels k).getD i 0
      = (1 / 2 : ℚ) *
          ((((knnScoreRows rows labels k).map (fun s => s.getD i 0 / (k : ℚ))).sum) /
              (labels.length : ℚ) + 1) := by
  rw [knn_shapley_score,
    List.getD_eq_getElem _ 0 (by simpa using hi)]
  simp

/-- The closed form of `_knn_shapley_score` on a valid input: the score of point `i`
is `1/2 · (1 + c i / (N·k))` where `c i` counts the query rows whose neighbor list
contains `i` with matching label. -/
lemma score_closed_form (labels : List ℤ) (rows : List (List ℕ)) (k : ℕ) (hk : 1 ≤ k)
    (hrows : ∀ row ∈ rows, row.length = k ∧ row.Nodup ∧ ∀ p ∈ row, p < labels.length)
    {i : ℕ} (hi : i < labels.length) :
    (knn_shapley_score rows labels k).getD i 0
      = 1 / 2 * (1 + (matchCount labels rows i : ℚ) / ((labels.length : ℚ) * (k : ℚ))) := by
  have hmap : (knnScoreRows rows labels k).map (fun s => s.getD i 0 / (k : ℚ))
      = (labels.zip rows).map
          (fun p => (if i ∈ p.2 ∧ labels.getD i 0 = p.1 then (1 : ℚ) else 0) / (k : ℚ)) := by
    rw [knnScoreRows, List.map_map]
    refine List.map_congr_left ?_
    intro p hp
    obtain ⟨hrow⟩ := List.of_mem_zip hp
    obtain ⟨hw, hnd, hin⟩ := hrows p.2 (List.of_mem_zip hp).2
    simp only [Function.comp]
    rw [knnRowScore_indicator labels p.1 p.2 k hw hk hnd hin i]
  have hsum : ((labels.zip rows).map
      (fun p => (if i ∈ p.2 ∧ labels.getD i 0 = p.1 then (1 : ℚ) else 0) / (k : ℚ))).sum
      = (matchCount labels rows i : ℚ) / (k : ℚ) := by
    rw [sum_map_div,
      sum_map_indicator (labels.zip rows) (fun p => i ∈ p.2 ∧ labels.getD i 0 = p.1)]
    rw [matchCount]
    simp only [Bool.decide_and]
  rw [knn_shapley_score_getD rows labels k hi, hmap, hsum]
  have hN : (0 : ℚ) < (labels.length : ℚ) := by
    exact_mod_cast Nat.lt_of_le_of_lt (Nat.zero_le i) hi
  have hkq : ((k : ℚ)) ≠ 0 := by
    have : (0 : ℚ) < (k : ℚ) := by exact_mod_cast hk
    exact ne_of_gt this
  field_simp
  ring

lemma knn_shapley_score_length (rows : List (List ℕ)) (labels : List ℤ) (k : ℕ) :
    (knn_shapley_score rows labels k).length = labels.length := by
  simp [knn_shapley_score]

/-- Bounds coming with the closed form: every returned score lies in
`[1/2, 1/2 + 1/(2k)]`. -/
lemma score_bounds (labels : List ℤ) (rows : List (List ℕ)) (k : ℕ) (hk : 1 ≤ k)
    (hrows : ∀ row ∈ rows, row.length = k ∧ row.Nodup ∧ ∀ p ∈ row, p < labels.length)
    {i : ℕ} (hi : i < labels.length) :
    1 / 2 ≤ (knn_shapley_score rows labels k).getD i 0 ∧
    (knn_shapley_score rows labels k).getD i 0 ≤ 1 / 2 + 1 / (2 * (k : ℚ)) := by
  rw [score_closed_form labels rows k hk hrows hi]
  have hN : (0 : ℚ) < (labels.length : ℚ) := by
    exact_mod_cast Nat.lt_of_le_of_lt (Nat.zero_le i) hi
  have hkq : (0 : ℚ) < (k : ℚ) := by exact_mod_cast hk
  have hcN : ((matchCount labels rows i : ℚ)) ≤ (labels.length : ℚ) := by
    have h1 : matchCount labels rows i ≤ (labels.zip rows).length :=
      List.countP_le_length _
    have h2 : (labels.zip rows).length ≤ labels.length := by
      rw [List.length_zip]
      exact min_le_left _ _
    exact_mod_cast le_trans h1 h2
  have ht0 : (0 : ℚ) ≤ (matchCount labels rows i : ℚ) / ((labels.length : ℚ) * (k : ℚ)) := by
    positivity
  have ht1 : (matchCount labels rows i : ℚ) / ((labels.length : ℚ) * (k : ℚ)) ≤ 1 / (k : ℚ) := by
    have hstep : (matchCount labels rows i : ℚ) / ((labels.length : ℚ) * (k : ℚ))
        ≤ (labels.length : ℚ) / ((labels.length : ℚ) * (k : ℚ)) := by
      gcongr
    have heq : (labels.length : ℚ) / ((labels.length : ℚ) * (k : ℚ)) = 1 / (k : ℚ) := by
      rw [div_eq_div_iff (by positivity) (by positivity)]
      ring
    rw [heq] at hstep
    exact hstep
  have h2k : 1 / (2 * (k : ℚ)) = (1 / (k : ℚ)) / 2 := by ring
  constructor
  · linarith
  · linarith

/-! ## Counting helpers -/

lemma countP_congr_mem {α : Type} (l : List α) (p q : α → Bool)
    (h : ∀ a ∈ l, p a = q a) : l.countP p = l.countP q := by
  induction l with
  | nil => rfl
  | cons a l ih =>
    rw [List.countP_cons, List.countP_cons, h a (List.mem_cons_self a l),
      ih (fun b hb => h b (List.mem_cons_of_mem a hb))]

lemma countP_zip_snd (q : List ℕ → Bool) :
    ∀ (l1 : List ℤ) (l2 : List (List ℕ)), l1.length = l2.length →
      (l1.zip l2).countP (fun p => q p.2) = l2.countP q := by
  intro l1
  induction l1 with
  | nil =>
    intro l2 h
    rw [List.length_nil] at h
    rw [(List.length_eq_zero.mp h.symm)]
    rfl
  | cons a l1 ih =>
    intro l2 h
    cases l2 with
    | nil => simp at h
    | cons b l2 =>
      simp only [List.zip_cons_cons, List.countP_cons, ih l2 (by simpa using h)]

lemma countP_forall2 (labels : List ℤ) (i : ℕ) {rows rows' : List (List ℕ)}
    (h : List.Forall₂ (fun r r' => ∀ x : ℕ, x ∈ r ↔ x ∈ r') rows rows') :
    ∀ lab : List ℤ,
      (lab.zip rows).countP (fun p => decide (i ∈ p.2) && decide (labels.getD i 0 = p.1))
        = (lab.zip rows').countP (fun p => decide (i ∈ p.2) && decide (labels.getD i 0 = p.1)) := by
  induction h with
  | nil => intro lab; rfl
  | @cons r r' rs rs' h1 h2 ih =>
    intro lab
    cases lab with
    | nil => rfl
    | cons y lab =>
      simp only [List.zip_cons_cons, List.countP_cons, ih lab,
        decide_eq_decide.mpr (h1 i)]

lemma matchCount_forall2 (labels : List ℤ) {rows rows' : List (List ℕ)}
    (h : List.Forall₂ (fun r r' => ∀ x : ℕ, x ∈ r ↔ x ∈ r') rows rows') (i : ℕ) :
    matchCount labels rows i = matchCount labels rows' i :=
  countP_forall2 labels i h labels

lemma matchCount_of_consistent (labels : List ℤ) (rows : List (List ℕ))
    (hlen : rows.length = labels.length)
    (hcons : ∀ p ∈ labels.zip rows, ∀ q ∈ p.2, labels.getD q 0 = p.1) (i : ℕ) :
    matchCount labels rows i = inCount rows i := by
  have h1 : (labels.zip rows).countP
        (fun p => decide (i ∈ p.2) && decide (labels.getD i 0 = p.1))
      = (labels.zip rows).countP (fun p => decide (i ∈ p.2)) := by
    refine countP_congr_mem _ _ _ ?_
    intro p hp
    by_cases hm : i ∈ p.2
    · simpa [hm] using hcons p hp i hm
    · simp [hm]
  have h2 := countP_zip_snd (fun row => decide (i ∈ row)) labels rows hlen.symm
  rw [matchCount, h1, inCount]
  exact h2

lemma matchCount_of_mismatch (labels : List ℤ) (rows : List (List ℕ))
    (hmis : ∀ p ∈ labels.zip rows, ∀ q ∈ p.2, labels.getD q 0 ≠ p.1) (i : ℕ) :
    matchCount labels rows i = 0 := by
  rw [matchCount, List.countP_eq_zero]
  intro p hp
  by_cases hm : i ∈ p.2
  · simpa [hm] using hmis p hp i hm
  · simp [hm]

/-! ## Evaluations of the pipeline on the doctest scenario

(The graph the modelled collaborator produces for the five 1-D points, and the run
of the scorer on it.) -/

lemma doctest_graph_eval :
    process_knn_graph_from_features [[0], [1], [2], [3], [4]] none 4 =
      Except.ok [[1, 2, 3, 4], [0, 2, 3, 4], [1, 3, 0, 4], [2, 4, 1, 0], [3, 2, 1, 0]] := by
  norm_num [process_knn_graph_from_features, resolveMetric, neighborRows, neighborRow,
    sortBy, insertBy, nnLe, sqdist, List.range_succ, List.filter, List.take,
    Int.toNat_ofNat, show ("euclidean" : String) ≠ "cosine" from by decide]

lemma doctest_score_eval :
    knn_shapley_score_run [[1, 2, 3, 4], [0, 2, 3, 4], [1, 3, 0, 4], [2, 4, 1, 0], [3, 2, 1, 0]]
      [0, 1, 0, 1, 0] 4 = Except.ok [11 / 20, 21 / 40, 11 / 20, 21 / 40, 11 / 20] := by
  norm_num [knn_shapley_score_run, mapRowsRun, rowScoreRun, pyIdx, knnRowCore, knnLoop,
    knnStep, matchVal, List.range_succ, List.replicate, List.set,
    show Int.toNat 3 = 3 from rfl]

/-! ## Run-path helpers -/

lemma rowScoreRun_indexError_of_wide (labels : List ℤ) (y : ℤ) (row : List ℕ) (k : ℤ)
    (hin : ∀ p ∈ row, p < labels.length) (hk : (row.length : ℤ) < k) :
    rowScoreRun labels y row k = Except.error PyErr.indexError := by
  have hall : row.reverse.all (fun p => decide (p < labels.length)) = true := by
    rw [List.all_eq_true]
    intro p hp
    exact decide_eq_true (hin p (List.mem_reverse.mp hp))
  have hpy : pyIdx row.reverse.length (k - 1) = none := by
    rw [pyIdx, List.length_reverse, if_neg (by omega), if_neg (by omega)]
  simp only [rowScoreRun, hall, if_true, hpy]

lemma rowScoreRun_ok (labels : List ℤ) (y : ℤ) (row : List ℕ) (k : ℤ) (jb : ℕ)
    (hin : ∀ p ∈ row, p < labels.length)
    (hpy : pyIdx row.reverse.length (k - 1) = some jb) :
    rowScoreRun labels y row k
      = Except.ok (knnRowCore labels y row.reverse jb (k - 1).toNat) := by
  have hall : row.reverse.all (fun p => decide (p < labels.length)) = true := by
    rw [List.all_eq_true]
    intro p hp
    exact decide_eq_true (hin p (List.mem_reverse.mp hp))
  simp only [rowScoreRun, hall, if_true, hpy]

lemma pyIdx_neg_one (w : ℕ) (hw : 1 ≤ w) : pyIdx w (-1) = some (w - 1) := by
  rw [pyIdx, if_neg (by omega), if_pos (by omega)]
  congr 1
  omega

lemma mapRowsRun_ok (labels : List ℤ) (k : ℤ) :
    ∀ l : List (ℤ × List ℕ),
      (∀ p ∈ l, ∃ s, rowScoreRun labels p.1 p.2 k = Except.ok s) →
      ∃ out, mapRowsRun labels k l = Except.ok out := by
  intro l
  induction l with
  | nil => exact fun _ => ⟨[], rfl⟩
  | cons p ps ih =>
    intro h
    obtain ⟨s, hs⟩ := h p (List.mem_cons_self p ps)
    obtain ⟨out, hout⟩ := ih (fun q hq => h q (List.mem_cons_of_mem p hq))
    exact ⟨s :: out, by simp only [mapRowsRun, hs, hout]⟩

/-! ## Claims -/

/-- C1, counterexample.  The spec's recurrence
`score[idx[j]] = score[idx[j+1]] + (match[j] - match[j+1]) / k` (marginal term
divided by `k` inside the recurrence) fails on the code: for
`labels = [0,0,1]`, query label `0`, row `[1,2]` (so `idx = [2,1]`,
`match = [0,1]`) and `k = 2`, the code's row pass puts `0` at `idx[0]`, whereas the
spec's recurrence would put `1 + (0-1)/2 = 1/2` there. -/
theorem C1_counterexample :
    ¬ ((knnRowScore [0, 0, 1] 0 [1, 2] 2).getD (([1, 2] : List ℕ).reverse.getD 0 0) 0
        = (knnRowScore [0, 0, 1] 0 [1, 2] 2).getD (([1, 2] : List ℕ).reverse.getD 1 0) 0
          + (matchVal [0, 0, 1] 0 ([1, 2] : List ℕ).reverse 0
              - matchVal [0, 0, 1] 0 ([1, 2] : List ℕ).reverse 1) / 2) := by
  norm_num [knnRowScore, knnRowCore, knnLoop, knnStep, matchVal, List.replicate, List.set]

/-- C1, amended.  The code's per-row recurrence carries no division by `k`: on a
valid row the base case is `score[idx[k-1]] = match[k-1]` and, for `j` from `k-2`
down to `0`, `score[idx[j]] = score[idx[j+1]] + (match[j] - match[j+1])`; the
division by `k` is applied to the whole accumulator only in the final aggregation
`0.5 * (np.mean(scores / k, axis=0) + 1)`. -/
theorem C1_code_recurrence (labels : List ℤ) (y : ℤ) (row : List ℕ) (k : ℕ)
    (hk : 1 ≤ k) (hw : row.length = k) (hnd : row.Nodup)
    (hin : ∀ p ∈ row, p < labels.length) :
    (knnRowScore labels y row k).getD (row.reverse.getD (k - 1) 0) 0
        = matchVal labels y row.reverse (k - 1)
    ∧ ∀ j, j + 2 ≤ k →
        (knnRowScore labels y row k).getD (row.reverse.getD j 0) 0
          = (knnRowScore labels y row k).getD (row.reverse.getD (j + 1) 0) 0
            + (matchVal labels y row.reverse j - matchVal labels y row.reverse (j + 1)) := by
  obtain ⟨-, hwrit, -⟩ := knnRowScore_spec labels y row k hk (le_of_eq hw.symm) hnd hin
  refine ⟨hwrit (k - 1) (by omega), ?_⟩
  intro j hj
  rw [hwrit j (by omega), hwrit (j + 1) (by omega)]
  ring

/-- C1, witness for the amended theorem at `labels = [0,0,1]`, `y = 0`,
`row = [1,2]`, `k = 2`. -/
theorem C1_code_recurrence_witness :
    (knnRowScore [0, 0, 1] 0 [1, 2] 2).getD (([1, 2] : List ℕ).reverse.getD (2 - 1) 0) 0
        = matchVal [0, 0, 1] 0 ([1, 2] : List ℕ).reverse (2 - 1)
    ∧ ∀ j, j + 2 ≤ 2 →
        (knnRowScore [0, 0, 1] 0 [1, 2] 2).getD (([1, 2] : List ℕ).reverse.getD j 0) 0
          = (knnRowScore [0, 0, 1] 0 [1, 2] 2).getD (([1, 2] : List ℕ).reverse.getD (j + 1) 0) 0
            + (matchVal [0, 0, 1] 0 ([1, 2] : List ℕ).reverse j
                - matchVal [0, 0, 1] 0 ([1, 2] : List ℕ).reverse (j + 1)) :=
  C1_code_recurrence [0, 0, 1] 0 [1, 2] 2 (by decide) (by decide) (by decide) (by decide)

/-- C2, counterexample.  A perfectly label-consistent input (every neighbor of every
point shares that point's label: `labels = [0,0]`, graph `[[1],[0]]`, `k = 1`) whose
scores are not `1.0`: the score of point `0` is `3/4`. -/
theorem C2_counterexample :
    (∀ p ∈ (([0, 0] : List ℤ).zip [[1], [0]]), ∀ q ∈ p.2, ([0, 0] : List ℤ).getD q 0 = p.1)
    ∧ (knn_shapley_score [[1], [0]] [0, 0] 1).getD 0 0 ≠ 1 := by
  constructor
  · decide
  · norm_num [knn_shapley_score, knnScoreRows, knnRowScore, knnRowCore, knnLoop, knnStep,
      matchVal, List.range_succ, List.replicate, List.set]

/-- C2, amended.  On a valid input, if every point's stored neighbors all share the
query point's label then the score of point `i` is `1/2 · (1 + d_i/(N·k))` where
`d_i` is the number of rows listing `i` (never `1.0`, since `d_i ≤ N < N·k + N`);
and if no stored neighbor ever shares the query label then every score is exactly
`1/2` (not `0.0`). -/
theorem C2_amended (labels : List ℤ) (rows : List (List ℕ)) (k : ℕ)
    (hlen : rows.length = labels.length) (hk : 1 ≤ k)
    (hrows : ∀ row ∈ rows, row.length = k ∧ row.Nodup ∧ ∀ p ∈ row, p < labels.length) :
    ((∀ p ∈ labels.zip rows, ∀ q ∈ p.2, labels.getD q 0 = p.1) →
      ∀ i, i < labels.length →
        (knn_shapley_score rows labels k).getD i 0
          = 1 / 2 * (1 + (inCount rows i : ℚ) / ((labels.length : ℚ) * (k : ℚ))))
    ∧ ((∀ p ∈ labels.zip rows, ∀ q ∈ p.2, labels.getD q 0 ≠ p.1) →
      ∀ i, i < labels.length →
        (knn_shapley_score rows labels k).getD i 0 = 1 / 2) := by
  constructor
  · intro hcons i hi
    rw [score_closed_form labels rows k hk hrows hi,
      matchCount_of_consistent labels rows hlen hcons i]
  · intro hmis i hi
    rw [score_closed_form labels rows k hk hrows hi,
      matchCount_of_mismatch labels rows hmis i]
    norm_num

/-- C2, witness for the amended theorem: the consistent input `labels = [0,0]`,
graph `[[1],[0]]`, `k = 1` scores point `0` at `1/2 · (1 + 1/(2·1)) = 3/4`. -/
theorem C2_amended_witness :
    (knn_shapley_score [[1], [0]] [0, 0] 1).getD 0 0
      = 1 / 2 * (1 + (inCount [[1], [0]] 0 : ℚ)
          / (((([0, 0] : List ℤ).length) : ℚ) * ((1 : ℕ) : ℚ))) :=
  (C2_amended [0, 0] [[1], [0]] 1 (by decide) (by decide) (by decide)).1 (by decide) 0
    (by decide)

/-- C3, confirmed.  On `labels = [0,1,0,1,0]`, `features = [[0],[1],[2],[3],[4]]`
(N = 5, D = 1), `k = 4` and no explicit metric, the pipeline resolves the default
metric to `"euclidean"` (D = 1 ≤ 3) and returns exactly
`[0.55, 0.525, 0.55, 0.525, 0.55]` (the rational model is exact, hence well within
the 1e-9 tolerance). -/
theorem C3_concrete :
    data_shapley_knn_run [0, 1, 0, 1, 0] none (some [[0], [1], [2], [3], [4]]) none 4
      = Except.ok [11 / 20, 21 / 40, 11 / 20, 21 / 40, 11 / 20]
    ∧ resolveMetric none 1 = "euclidean" := by
  constructor
  · show (match process_knn_graph_from_features [[0], [1], [2], [3], [4]] none 4 with
      | Except.error e => Except.error e
      | Except.ok g => knn_shapley_score_run g [0, 1, 0, 1, 0] 4)
      = Except.ok [11 / 20, 21 / 40, 11 / 20, 21 / 40, 11 / 20]
    rw [doctest_graph_eval]
    exact doctest_score_eval
  · rfl

/-- C4, confirmed.  On a valid input every entry the scorer holds in the per-row
contribution matrix is `0` or `1` (written entries are exactly the 0/1 match values,
unwritten entries stay `0`), and consequently every returned score lies in
`[1/2, 1/2 + 1/(2k)]` — in particular never strictly below `1/2`. -/
theorem C4_matrix_and_bounds (labels : List ℤ) (rows : List (List ℕ)) (k : ℕ)
    (hlen : rows.length = labels.length) (hk : 1 ≤ k)
    (hrows : ∀ row ∈ rows, row.length = k ∧ row.Nodup ∧ ∀ p ∈ row, p < labels.length) :
    (∀ s ∈ knnScoreRows rows labels k, ∀ x ∈ s, x = 0 ∨ x = 1)
    ∧ (∀ x ∈ knn_shapley_score rows labels k,
        1 / 2 ≤ x ∧ x ≤ 1 / 2 + 1 / (2 * (k : ℚ))) := by
  constructor
  · intro s hs x hx
    obtain ⟨p, hp, hps⟩ := List.mem_map.mp hs
    obtain ⟨n, hn, hnx⟩ := List.mem_iff_getElem.mp hx
    obtain ⟨hw, hnd, hin⟩ := hrows p.2 (List.of_mem_zip hp).2
    have : s.getD n 0 = x := by rw [List.getD_eq_getElem s 0 hn]; exact hnx
    rw [← this, ← hps, knnRowScore_indicator labels p.1 p.2 k hw hk hnd hin n]
    split
    · right; rfl
    · left; rfl
  · intro x hx
    obtain ⟨i, hi, hix⟩ := List.mem_iff_getElem.mp hx
    have hiN : i < labels.length := by
      have := knn_shapley_score_length rows labels k
      omega
    have : (knn_shapley_score rows labels k).getD i 0 = x := by
      rw [List.getD_eq_getElem _ 0 hi]; exact hix
    rw [← this]
    exact score_bounds labels rows k hk hrows hiN

/-- C4, witness at `labels = [0,0]`, graph `[[1],[0]]`, `k = 1`. -/
theorem C4_matrix_and_bounds_witness :
    (∀ s ∈ knnScoreRows [[1], [0]] [0, 0] 1, ∀ x ∈ s, x = 0 ∨ x = 1)
    ∧ (∀ x ∈ knn_shapley_score [[1], [0]] [0, 0] 1,
        1 / 2 ≤ x ∧ x ≤ 1 / 2 + 1 / (2 * ((1 : ℕ) : ℚ))) :=
  C4_matrix_and_bounds [0, 0] [[1], [0]] 1 (by decide) (by decide) (by decide)

/-- C5, confirmed.  On a valid input the returned vector has exactly one entry per
label (length `N`, positionally aligned), and every entry lies in `[0, 1]`. -/
theorem C5_range_and_length (labels : List ℤ) (rows : List (List ℕ)) (k : ℕ)
    (hlen : rows.length = labels.length) (hk : 1 ≤ k)
    (hrows : ∀ row ∈ rows, row.length = k ∧ row.Nodup ∧ ∀ p ∈ row, p < labels.length) :
    (knn_shapley_score rows labels k).length = labels.length
    ∧ ∀ x ∈ knn_shapley_score rows labels k, 0 ≤ x ∧ x ≤ 1 := by
  refine ⟨knn_shapley_score_length rows labels k, ?_⟩
  intro x hx
  obtain ⟨i, hi, hix⟩ := List.mem_iff_getElem.mp hx
  have hiN : i < labels.length := by
    have := knn_shapley_score_length rows labels k
    omega
  have hval : (knn_shapley_score rows labels k).getD i 0 = x := by
    rw [List.getD_eq_getElem _ 0 hi]; exact hix
  obtain ⟨hlo, hhi⟩ := score_bounds labels rows k hk hrows hiN
  rw [hval] at hlo hhi
  have hkq : (1 : ℚ) ≤ (k : ℚ) := by exact_mod_cast hk
  have h2k : 1 / (2 * (k : ℚ)) ≤ 1 / 2 := by
    apply one_div_le_one_div_of_le
    · norm_num
    · linarith
  constructor
  · linarith
  · linarith

/-- C5, witness at `labels = [0,0]`, graph `[[1],[0]]`, `k = 1`. -/
theorem C5_range_and_length_witness :
    (knn_shapley_score [[1], [0]] [0, 0] 1).length = ([0, 0] : List ℤ).length
    ∧ ∀ x ∈ knn_shapley_score [[1], [0]] [0, 0] 1, 0 ≤ x ∧ x ≤ 1 :=
  C5_range_and_length [0, 0] [[1], [0]] 1 (by decide) (by decide) (by decide)

/-- C6, counterexample.  A precomputed graph whose rows store 1 neighbor, with
`k = 2`: the call does not fail with the `InvalidParameter` (`ValueError`) the claim
requires — it raises an `IndexError` from numpy row indexing, after score
computation has begun. -/
theorem C6_counterexample :
    data_shapley_knn_run [0, 0] (some [[1], [0]]) none none 2 = Except.error PyErr.indexError
    ∧ PyErr.indexError ≠ PyErr.valueError := by
  exact ⟨rfl, by decide⟩

/-- C6, amended.  When a precomputed neighbor graph is supplied, no validation of
`k` against the graph's row width happens at all; if `k` exceeds the number of
neighbors stored per row, the computation fails with an index-out-of-range error
(`IndexError`) raised while scoring the first row, not with `InvalidParameter`. -/
theorem C6_amended (labels : List ℤ) (rows : List (List ℕ))
    (features : Option (List (List ℚ))) (metric : Option String) (w : ℕ) (k : ℤ)
    (hlen : rows.length = labels.length) (hne : labels ≠ [])
    (hw : ∀ row ∈ rows, row.length = w)
    (hin : ∀ row ∈ rows, ∀ p ∈ row, p < labels.length)
    (hk : (w : ℤ) < k) :
    data_shapley_knn_run labels (some rows) features metric k
      = Except.error PyErr.indexError := by
  obtain ⟨y, ls, rfl⟩ := List.exists_cons_of_ne_nil hne
  cases rows with
  | nil => simp at hlen
  | cons r rs =>
    have hr : rowScoreRun (y :: ls) y r k = Except.error PyErr.indexError := by
      apply rowScoreRun_indexError_of_wide
      · exact hin r (List.mem_cons_self r rs)
      · rw [hw r (List.mem_cons_self r rs)]
        exact hk
    have hmap : mapRowsRun (y :: ls) k ((y :: ls).zip (r :: rs))
        = Except.error PyErr.indexError := by
      rw [List.zip_cons_cons]
      simp only [mapRowsRun, hr]
    have hscore : knn_shapley_score_run (r :: rs) (y :: ls) k
        = Except.error PyErr.indexError := by
      simp only [knn_shapley_score_run]
      rw [if_neg (by simp), hmap]
    cases features with
    | none => exact hscore
    | some X => exact hscore

/-- C6, witness for the amended theorem at `labels = [5,7]`, graph `[[1],[0]]`
(row width 1), `k = 3`. -/
theorem C6_amended_witness :
    data_shapley_knn_run [5, 7] (some [[1], [0]]) none none 3
      = Except.error PyErr.indexError :=
  C6_amended [5, 7] [[1], [0]] none none 1 3 (by decide) (by decide) (by decide)
    (by decide) (by decide)

/-- C7, counterexample.  With a precomputed graph and `k = 0` (non-positive), the
call raises nothing at all — no `InvalidParameter` (`ValueError`), no `IndexError`;
it runs to completion (in floating point the `scores / k` division by zero merely
produces non-error `nan`/`inf` values with a warning). -/
theorem C7_counterexample :
    data_shapley_knn_run [0, 0] (some [[1], [0]]) none none 0
        ≠ Except.error PyErr.valueError
    ∧ data_shapley_knn_run [0, 0] (some [[1], [0]]) none none 0
        ≠ Except.error PyErr.indexError := by
  have h : data_shapley_knn_run [0, 0] (some [[1], [0]]) none none 0
      = Except.ok [1 / 2, 1 / 2] := by
    norm_num [data_shapley_knn_run, knn_shapley_score_run, mapRowsRun, rowScoreRun, pyIdx,
      knnRowCore, knnLoop, knnStep, matchVal, List.range_succ, List.replicate, List.set]
  rw [h]
  exact ⟨by simp, by simp⟩

/-- C7, amended.  Non-positive `k` is rejected only on the features path — and there
by the neighbor-search backend's own `n_neighbors` validation during index
construction (a `ValueError` from scikit-learn, after metric resolution), not by
this module's pre-validation.  On the precomputed-graph path a non-positive `k = 0`
over at least one point raises no error and scoring completes; with zero points the
graph path fails too, but with the `ValueError` of `indices.reshape(N, -1)` at
`N = 0` — a failure independent of `k`, not a validation of it. -/
theorem C7_amended :
    (∀ (labels : List ℤ) (X : List (List ℚ)) (metric : Option String) (k : ℤ), k ≤ 0 →
      data_shapley_knn_run labels none (some X) metric k = Except.error PyErr.valueError)
    ∧ (∀ (labels : List ℤ) (rows : List (List ℕ)) (features : Option (List (List ℚ)))
        (metric : Option String) (w : ℕ),
        labels ≠ [] →
        rows.length = labels.length → 1 ≤ w →
        (∀ row ∈ rows, row.length = w) →
        (∀ row ∈ rows, ∀ p ∈ row, p < labels.length) →
        ∃ v, data_shapley_knn_run labels (some rows) features metric 0 = Except.ok v)
    ∧ (∀ (rows : List (List ℕ)) (features : Option (List (List ℚ)))
        (metric : Option String) (k : ℤ),
        data_shapley_knn_run [] (some rows) features metric k
          = Except.error PyErr.valueError) := by
  refine ⟨?_, ?_, ?_⟩
  · intro labels X metric k hk
    have hproc : process_knn_graph_from_features X metric k
        = Except.error PyErr.valueError := by
      simp only [process_knn_graph_from_features]
      rw [if_neg (by omega), if_pos hk]
    simp only [data_shapley_knn_run, hproc]
  · intro labels rows features metric w hne hlen hwpos hw hin
    have hok : ∀ p ∈ labels.zip rows, ∃ s, rowScoreRun labels p.1 p.2 0 = Except.ok s := by
      intro p hp
      refine ⟨_, rowScoreRun_ok labels p.1 p.2 0 (w - 1)
        (fun q hq => hin p.2 (List.of_mem_zip hp).2 q hq) ?_⟩
      rw [List.length_reverse, hw p.2 (List.of_mem_zip hp).2]
      rw [show ((0 : ℤ) - 1) = -1 from rfl]
      exact pyIdx_neg_one w hwpos
    obtain ⟨out, hout⟩ := mapRowsRun_ok labels 0 (labels.zip rows) hok
    have hN0 : ¬ labels.length = 0 := fun h => hne (List.length_eq_zero.mp h)
    have hscore : knn_shapley_score_run rows labels 0
        = Except.ok ((List.range labels.length).map (fun i =>
            (1 / 2 : ℚ) *
              (((out.map (fun s => s.getD i 0 / ((0 : ℤ) : ℚ))).sum) /
                  (labels.length : ℚ) + 1))) := by
      simp only [knn_shapley_score_run]
      rw [if_neg hN0, hout]
    cases features with
    | none => exact ⟨_, hscore⟩
    | some X => exact ⟨_, hscore⟩
  · intro rows features metric k
    have hscore : knn_shapley_score_run rows [] k = Except.error PyErr.valueError := rfl
    cases features with
    | none => exact hscore
    | some X => exact hscore

/-- C7, witness for the amended theorem: features path with `k = -1` rejected with a
`ValueError`; graph path over two points with `k = 0` completes without error; graph
path over zero points fails with the reshape `ValueError` for any `k`. -/
theorem C7_amended_witness :
    data_shapley_knn_run [0] none (some [[1]]) none (-1) = Except.error PyErr.valueError
    ∧ (∃ v, data_shapley_knn_run [0, 0] (some [[1], [0]]) none none 0 = Except.ok v)
    ∧ data_shapley_knn_run [] (some [[]]) none none 5 = Except.error PyErr.valueError :=
  ⟨C7_amended.1 [0] [[1]] none (-1) (by norm_num),
   C7_amended.2.1 [0, 0] [[1], [0]] none none 1 (by decide) (by decide) (by decide)
     (by decide) (by decide),
   C7_amended.2.2 [[]] none none 5⟩

/-- C8, confirmed.  With neither graph nor features the call fails with
`InvalidParameter` (`ValueError`), unconditionally; with only features it fails with
`InvalidParameter` whenever `k` exceeds the number of points, and that check fires
for every metric and every feature content — before any neighbor search is
attempted. -/
theorem C8_validation :
    (∀ (labels : List ℤ) (metric : Option String) (k : ℤ),
      data_shapley_knn_run labels none none metric k = Except.error PyErr.valueError)
    ∧ (∀ (labels : List ℤ) (X : List (List ℚ)) (metric : Option String) (k : ℤ),
        (X.length : ℤ) < k →
        data_shapley_knn_run labels none (some X) metric k
          = Except.error PyErr.valueError) := by
  constructor
  · intro labels metric k
    rfl
  · intro labels X metric k hk
    have hproc : process_knn_graph_from_features X metric k
        = Except.error PyErr.valueError := by
      simp only [process_knn_graph_from_features]
      rw [if_pos hk]
    simp only [data_shapley_knn_run, hproc]

/-- C8, witness: one point, `k = 2 > N = 1`. -/
theorem C8_validation_witness :
    data_shapley_knn_run [0] none (some [[0]]) none 2 = Except.error PyErr.valueError :=
  C8_validation.2 [0] [[0]] none 2 (by decide)

/-- C9, confirmed.  When no metric is given the resolved metric is `"cosine"` for
feature dimension `D > 3` and `"euclidean"` otherwise; an explicitly supplied metric
is used as given; and on the non-raising path the graph is built with exactly the
resolved metric. -/
theorem C9_metric_policy :
    (∀ D : ℕ, resolveMetric none D = if D > 3 then "cosine" else "euclidean")
    ∧ (∀ (m : String) (D : ℕ), resolveMetric (some m) D = m)
    ∧ (∀ (X : List (List ℚ)) (metric : Option String) (k : ℤ),
        0 < k → k < (X.length : ℤ) →
        process_knn_graph_from_features X metric k
          = Except.ok (neighborRows X (resolveMetric metric (X.headD []).length)
              k.toNat)) := by
  refine ⟨fun D => rfl, fun m D => rfl, ?_⟩
  intro X metric k hk hlen
  simp only [process_knn_graph_from_features]
  rw [if_neg (by omega), if_neg (by omega), if_neg (by omega)]

/-- C9, witness: two 1-D points, `k = 1`, no metric (resolved to euclidean). -/
theorem C9_metric_policy_witness :
    process_knn_graph_from_features [[0], [1]] none 1
      = Except.ok (neighborRows [[0], [1]]
          (resolveMetric none (([[0], [1]] : List (List ℚ)).headD []).length)
          (Int.toNat 1)) :=
  C9_metric_policy.2.2 [[0], [1]] none 1 (by decide) (by decide)

/-- C10, confirmed.  On a valid input the score of point `i` equals
`1/2 · (1 + c_i/(N·k))`, where `c_i` counts the query rows whose stored neighbor
list contains `i` with matching label; consequently the output is unchanged by any
within-row reordering of the neighbor lists (only row membership matters). -/
theorem C10_closed_form_and_order_free (labels : List ℤ) (rows : List (List ℕ)) (k : ℕ)
    (hlen : rows.length = labels.length) (hk : 1 ≤ k)
    (hrows : ∀ row ∈ rows, row.length = k ∧ row.Nodup ∧ ∀ p ∈ row, p < labels.length) :
    (∀ i, i < labels.length →
      (knn_shapley_score rows labels k).getD i 0
        = 1 / 2 * (1 + (matchCount labels rows i : ℚ)
            / ((labels.length : ℚ) * (k : ℚ))))
    ∧ (∀ rows' : List (List ℕ),
        (∀ row ∈ rows', row.length = k ∧ row.Nodup ∧ ∀ p ∈ row, p < labels.length) →
        List.Forall₂ (fun r r' => ∀ x : ℕ, x ∈ r ↔ x ∈ r') rows rows' →
        knn_shapley_score rows' labels k = knn_shapley_score rows labels k) := by
  constructor
  · exact fun i hi => score_closed_form labels rows k hk hrows hi
  · intro rows' hrows' hmem
    refine List.ext_getElem
      (by rw [knn_shapley_score_length, knn_shapley_score_length]) ?_
    intro i h1 h2
    have hiN : i < labels.length := by
      have := knn_shapley_score_length rows' labels k
      omega
    rw [← List.getD_eq_getElem _ 0 h1, ← List.getD_eq_getElem _ 0 h2,
      score_closed_form labels rows' k hk hrows' hiN,
      score_closed_form labels rows k hk hrows hiN,
      matchCount_forall2 labels hmem i]

/-- C10, witness: `labels = [0,1,0]`, graph `[[1,2],[0,2],[0,1]]`, `k = 2`, against
the within-row reordering `[[2,1],[2,0],[1,0]]`. -/
theorem C10_closed_form_and_order_free_witness :
    (knn_shapley_score [[1, 2], [0, 2], [0, 1]] [0, 1, 0] 2).getD 0 0
      = 1 / 2 * (1 + (matchCount [0, 1, 0] [[1, 2], [0, 2], [0, 1]] 0 : ℚ)
          / (((([0, 1, 0] : List ℤ).length) : ℚ) * ((2 : ℕ) : ℚ)))
    ∧ knn_shapley_score [[2, 1], [2, 0], [1, 0]] [0, 1, 0] 2
        = knn_shapley_score [[1, 2], [0, 2], [0, 1]] [0, 1, 0] 2 :=
  ⟨(C10_closed_form_and_order_free [0, 1, 0] [[1, 2], [0, 2], [0, 1]] 2 (by decide)
      (by decide) (by decide)).1 0 (by decide),
   (C10_closed_form_and_order_free [0, 1, 0] [[1, 2], [0, 2], [0, 1]] 2 (by decide)
      (by decide) (by decide)).2 [[2, 1], [2, 0], [1, 0]] (by decide)
     (by refine List.Forall₂.cons (fun x => by simp [List.mem_cons]; tauto) ?_
         refine List.Forall₂.cons (fun x => by simp [List.mem_cons]; tauto) ?_
         exact List.Forall₂.cons (fun x => by simp [List.mem_cons]; tauto)
           List.Forall₂.nil)⟩
